import Mathlib

/-
Verification of Threads/RefCountedArray.h (Vrui): a fixed-size array with
copy-on-write sharing and atomic reference counting.

The embedding models the heap explicitly: a heap is a list of slots, each
holding an optional storage block (`Header` plus trailing element storage).
A handle (`RefCountedArray` object) is the value of its `header` pointer:
`none` for a null header, `some id` for a pointer to heap slot `id`.
Slot indices are never reused, so a slot that has been destroyed stays
`none`, which lets us express "the block is destroyed exactly once".

Bodies present in RefCountedArray.h are translated directly.  The bodies of
`create`, `destroy` and `modify` live in RefCountedArray.icpp, and the
`Atomic` counter lives in Threads/Atomic.h; neither file is available, so
those definitions are modelled from the spec and marked as such.
-/

namespace Threads

/-- Modulus of the C `unsigned int` used for the reference count. -/
def uintMod : Nat := 2 ^ 32

/-- Modelled from the spec: Threads/Atomic.h is not available.  Per spec
section 6, the atomic primitive offers increment-by-one; `preAdd` adds and
returns the new value, with unsigned 32-bit wraparound. -/
def preAdd (x n : Nat) : Nat := (x + n) % uintMod

/-- Modelled from the spec: Threads/Atomic.h is not available.  Per spec
section 6, the atomic primitive offers a decrement that reports on the
post-decrement value; `preSub` subtracts and returns the new value, with
unsigned 32-bit wraparound. -/
def preSub (x n : Nat) : Nat := (x + (uintMod - n % uintMod)) % uintMod

/-- A storage block: the `Header` structure (`refCount`, `size`) together
with its trailing element storage `elements[0]`. -/
structure Block (α : Type) where
  refCount : Nat
  size : Nat
  elements : List α
deriving DecidableEq

/-- `Header::ref()`: increment the reference counter (`refCount.preAdd(1)`). -/
def Block.ref {α : Type} (b : Block α) : Block α :=
  { b with refCount := preAdd b.refCount 1 }

/-- `Header::unref()`: decrement the reference counter and report whether the
array has become orphaned (`return refCount.preSub(1)==0`) — a single fused
decrement-and-test on the value returned by `preSub`. -/
def Block.unref {α : Type} (b : Block α) : Block α × Bool :=
  let r := preSub b.refCount 1
  ({ b with refCount := r }, r == 0)

/-- A handle is the value of the `header` pointer: `none` is the null
pointer, `some id` points at heap slot `id`. -/
abbrev Handle := Option Nat

/-- The heap: a list of slots, each holding an optional block.  A destroyed
block leaves a `none` slot behind; slots are never reused. -/
abbrev Heap (α : Type) := List (Option (Block α))

/-- Look an element up by position. -/
def lGet {β : Type} : List β → Nat → Option β
  | [], _ => none
  | b :: _, 0 => some b
  | _ :: t, n + 1 => lGet t n

/-- Replace the element at a position (no-op when out of range). -/
def lSet {β : Type} : List β → Nat → β → List β
  | [], _, _ => []
  | _ :: t, 0, v => v :: t
  | b :: t, n + 1, v => b :: lSet t n v

/-- Remove the element at a position (no-op when out of range). -/
def lDel {β : Type} : List β → Nat → List β
  | [], _ => []
  | _ :: t, 0 => t
  | b :: t, n + 1 => b :: lDel t n

/-- Dereference a heap slot: the block stored at `id`, if any. -/
def hLookup {α : Type} (heap : Heap α) (id : Nat) : Option (Block α) :=
  match lGet heap id with
  | some v => v
  | none => none

/-- Overwrite a heap slot. -/
def hSet {α : Type} (heap : Heap α) (id : Nat) (v : Option (Block α)) : Heap α :=
  lSet heap id v

/-- Modelled from the spec: `RefCountedArray::destroy` is implemented in
RefCountedArray.icpp, which is not available.  Per spec section 4.1, destroy
destructs every element and releases the allocation; here the slot becomes
permanently empty. -/
def destroy {α : Type} (heap : Heap α) (id : Nat) : Heap α :=
  hSet heap id none

/-- Modelled from the spec: `RefCountedArray::create` is implemented in
RefCountedArray.icpp, which is not available.  Per spec section 4.1,
allocate reserves one region for the header plus `size` elements,
default-constructs each element and initializes `refCount = 1`.  Allocation
appends a fresh slot, so the new id is the old heap length. -/
def create {α : Type} [Inhabited α] (heap : Heap α) (n : Nat) : Heap α × Nat :=
  (heap ++ [some ⟨1, n, List.replicate n default⟩], heap.length)

/-- Reference-count events, in the order the code performs them. -/
inductive Ev where
  | refE (id : Nat)
  | unrefE (id : Nat)
  | destroyE (id : Nat)
  | allocE (id : Nat)
deriving DecidableEq

/-- `RefCountedArray(void)`: creates an invalid array (`header(0)`). -/
def mkInvalid : Handle := none

/-- `RefCountedArray(size_t)`: creates a new array of the given size
(`header(create(sSize))`). -/
def constructSized {α : Type} [Inhabited α] (heap : Heap α) (n : Nat) :
    Heap α × Handle :=
  let c := create heap n
  (c.1, some c.2)

/-- Copy constructor: `header(source.header)`, then
`if(header!=0) header->ref()`.  Returns the new heap, the new handle, and
the reference-count events performed. -/
def copyConstruct {α : Type} (heap : Heap α) (src : Handle) :
    Heap α × Handle × List Ev :=
  match src with
  | none => (heap, none, [])
  | some id =>
    match hLookup heap id with
    | some b => (hSet heap id (some b.ref), some id, [Ev.refE id])
    | none => (heap, some id, [Ev.refE id])

/-- The release step shared by the destructor and the assignment operator:
`if(header!=0&&header->unref()) destroy(header);`. -/
def release {α : Type} (heap : Heap α) (h : Handle) : Heap α × List Ev :=
  match h with
  | none => (heap, [])
  | some id =>
    match hLookup heap id with
    | none => (heap, [Ev.unrefE id])
    | some b =>
      let u := b.unref
      if u.2 then (destroy (hSet heap id (some u.1)) id, [Ev.unrefE id, Ev.destroyE id])
      else (hSet heap id (some u.1), [Ev.unrefE id])

/-- Assignment operator: `if(header!=source.header)` then unref (and
possibly destroy) the current array, adopt `source.header`, and ref it. -/
def assign {α : Type} (heap : Heap α) (dst src : Handle) :
    Heap α × Handle × List Ev :=
  if dst = src then (heap, dst, [])
  else
    let r := release heap dst
    let c := copyConstruct r.1 src
    (c.1, src, r.2 ++ c.2.2)

/-- Modelled from the spec: `RefCountedArray::modify` is implemented in
RefCountedArray.icpp, which is not available.  Per spec section 4.2: if the
referenced block has reference count exactly 1, nothing happens; otherwise
allocate a new block of the same size, copy every element into it, adopt the
new block (refcount 1), and release the old block.  The allocator is a
parameter so that allocation failure (which raises before any state change)
can be studied; on failure the heap and the handle are returned untouched. -/
def modifyA {α : Type} (alloc : Heap α → Nat → List α → Option (Heap α × Nat))
    (heap : Heap α) (h : Handle) : Heap α × Handle × List Ev :=
  match h with
  | none => (heap, none, [])
  | some id =>
    match hLookup heap id with
    | none => (heap, some id, [])
    | some b =>
      if b.refCount = 1 then (heap, some id, [])
      else
        match alloc heap b.size b.elements with
        | none => (heap, some id, [])
        | some hn =>
          let r := release hn.1 (some id)
          (r.1, some hn.2, Ev.allocE hn.2 :: r.2)

/-- The standard allocator: appends a fresh block with the given size and
elements and reference count 1; never fails. -/
def stdAlloc {α : Type} (heap : Heap α) (n : Nat) (es : List α) :
    Option (Heap α × Nat) :=
  some (heap ++ [some ⟨1, n, es⟩], heap.length)

/-- An allocator that always fails (resource exhaustion). -/
def noAlloc {α : Type} (_ : Heap α) (_ : Nat) (_ : List α) :
    Option (Heap α × Nat) :=
  none

/-- Modelled from the spec: sized construction through a fallible allocator.
On allocation failure the exception propagates before any state change: no
handle is produced and the heap is untouched. -/
def constructSizedA {α : Type} [Inhabited α]
    (alloc : Heap α → Nat → List α → Option (Heap α × Nat))
    (heap : Heap α) (n : Nat) : Heap α × Option Handle :=
  match alloc heap n (List.replicate n default) with
  | none => (heap, none)
  | some hn => (hn.1, some (some hn.2))

/-- `RefCountedArray::modify` with the standard allocator, without the event
trace. -/
def modifyOp {α : Type} (heap : Heap α) (h : Handle) : Heap α × Handle :=
  let m := modifyA stdAlloc heap h
  (m.1, m.2.1)

/-- `isValid()`: `return header!=0`. -/
def isValid (h : Handle) : Bool := h.isSome

/-- `getSize()`: `return header->size`.  On an invalid handle the C++ code
has undefined behavior; the model returns 0 there. -/
def getSize {α : Type} (heap : Heap α) (h : Handle) : Nat :=
  match h with
  | none => 0
  | some id =>
    match hLookup heap id with
    | some b => b.size
    | none => 0

/-- Const `operator[]`: `return header->elements[index]`.  Out-of-range or
invalid accesses are undefined behavior in C++; the model returns the
default element there. -/
def getConst {α : Type} [Inhabited α] (heap : Heap α) (h : Handle) (i : Nat) : α :=
  match h with
  | none => default
  | some id =>
    match hLookup heap id with
    | some b => b.elements.getD i default
    | none => default

/-- The effect of writing through the pointer returned by the non-const
`getArray()` / the reference returned by the non-const `operator[]`:
`header->elements[index] = v`, directly on the currently referenced block.
Neither accessor calls `modify()` itself (the code comment makes `modify()`
a precondition the caller must establish). -/
def writeElem {α : Type} (heap : Heap α) (h : Handle) (i : Nat) (v : α) : Heap α :=
  match h with
  | none => heap
  | some id =>
    match hLookup heap id with
    | some b => hSet heap id (some { b with elements := b.elements.set i v })
    | none => heap

/-- `set(index,newElement)`: `modify(); header->elements[index]=newElement;`. -/
def setElem {α : Type} [Inhabited α] (heap : Heap α) (h : Handle) (i : Nat) (v : α) :
    Heap α × Handle :=
  let m := modifyOp heap h
  (writeElem m.1 m.2 i v, m.2)

/-- A system state: the heap together with every currently live handle. -/
structure SysState (α : Type) where
  heap : Heap α
  handles : List Handle
deriving DecidableEq

/-- Handle operations, addressing live handles by position. -/
inductive Op where
  | constructInvalid
  | construct (n : Nat)
  | copy (i : Nat)
  | assignOp (i j : Nat)
  | modifyStep (i : Nat)
  | destroyH (i : Nat)
deriving DecidableEq

/-- One handle operation on a system state (no-op on a bad index). -/
def step {α : Type} [Inhabited α] (s : SysState α) : Op → SysState α
  | Op.constructInvalid => ⟨s.heap, s.handles ++ [mkInvalid]⟩
  | Op.construct n =>
    let c := constructSized s.heap n
    ⟨c.1, s.handles ++ [c.2]⟩
  | Op.copy i =>
    match lGet s.handles i with
    | none => s
    | some hd =>
      let c := copyConstruct s.heap hd
      ⟨c.1, s.handles ++ [c.2.1]⟩
  | Op.assignOp i j =>
    match lGet s.handles i, lGet s.handles j with
    | some d, some sc =>
      let a := assign s.heap d sc
      ⟨a.1, lSet s.handles i a.2.1⟩
    | _, _ => s
  | Op.modifyStep i =>
    match lGet s.handles i with
    | none => s
    | some hd =>
      let m := modifyOp s.heap hd
      ⟨m.1, lSet s.handles i m.2⟩
  | Op.destroyH i =>
    match lGet s.handles i with
    | none => s
    | some hd =>
      let r := release s.heap hd
      ⟨r.1, lDel s.handles i⟩

/-- Run a list of handle operations. -/
def run {α : Type} [Inhabited α] (s : SysState α) : List Op → SysState α
  | [] => s
  | op :: ops => run (step s op) ops

/-- The empty initial state: no blocks, no handles. -/
def initSt (α : Type) : SysState α := ⟨[], []⟩

/-- How many live handles reference heap slot `id`. -/
def countRefs : List Handle → Nat → Nat
  | [], _ => 0
  | h :: t, id => (if h = some id then 1 else 0) + countRefs t id

/-- The reference-count invariant: every live block's `refCount` equals the
number of handles referencing it and is positive, and every referenced slot
holds a live block. -/
def Inv {α : Type} (s : SysState α) : Prop :=
  (∀ id b, hLookup s.heap id = some b →
    b.refCount = countRefs s.handles id ∧ 0 < b.refCount) ∧
  (∀ id, 0 < countRefs s.handles id → ∃ b, hLookup s.heap id = some b)

/-- How a handle operation may change the heap: every slot is unchanged,
destroyed, touched only in its reference count, or lies beyond the old heap
(fresh allocation); slots are never reused and old slots never grow back.
In particular a block's `size` and `elements` never change after creation. -/
def Evolves {α : Type} (h1 h2 : Heap α) : Prop :=
  h1.length ≤ h2.length ∧
  ∀ id, hLookup h2 id = hLookup h1 id
    ∨ hLookup h2 id = none
    ∨ (∃ b r, hLookup h1 id = some b ∧
        hLookup h2 id = some { b with refCount := r })
    ∨ (hLookup h1 id = none ∧ h1.length ≤ id)

theorem preSub_one (c : Nat) (h1 : 0 < c) (h2 : c < uintMod) : preSub c 1 = c - 1 := by
  simp only [preSub, uintMod] at *
  omega

theorem preAdd_one (c : Nat) (h : c + 1 < uintMod) : preAdd c 1 = c + 1 := by
  simp only [preAdd, uintMod] at *
  omega

theorem unref_fst {α : Type} (b : Block α) (h1 : 0 < b.refCount)
    (h2 : b.refCount < uintMod) :
    (b.unref).1 = { b with refCount := b.refCount - 1 } := by
  simp [Block.unref, preSub_one b.refCount h1 h2]

theorem unref_snd {α : Type} (b : Block α) (h1 : 0 < b.refCount)
    (h2 : b.refCount < uintMod) :
    (b.unref).2 = decide (b.refCount = 1) := by
  simp only [Block.unref, preSub_one b.refCount h1 h2]
  by_cases h : b.refCount = 1
  · simp [h]
  · simp [h]
    omega

theorem lGet_lt_length {β : Type} (l : List β) (i : Nat) (v : β)
    (h : lGet l i = some v) : i < l.length := by
  induction l generalizing i with
  | nil => simp [lGet] at h
  | cons a t ih =>
    cases i with
    | zero => simp
    | succ n =>
      have := ih n (by simpa [lGet] using h)
      simpa using Nat.succ_lt_succ this

theorem lGet_none_of_le {β : Type} (l : List β) (i : Nat) (h : l.length ≤ i) :
    lGet l i = none := by
  induction l generalizing i with
  | nil => rfl
  | cons a t ih =>
    cases i with
    | zero => simp at h
    | succ n => exact ih n (by simpa using h)

theorem lGet_lSet_self {β : Type} (l : List β) (i : Nat) (v : β)
    (h : i < l.length) : lGet (lSet l i v) i = some v := by
  induction l generalizing i with
  | nil => simp at h
  | cons a t ih =>
    cases i with
    | zero => rfl
    | succ n => exact ih n (by simpa using h)

theorem lGet_lSet_ne {β : Type} (l : List β) (i j : Nat) (v : β)
    (h : i ≠ j) : lGet (lSet l i v) j = lGet l j := by
  induction l generalizing i j with
  | nil => rfl
  | cons a t ih =>
    cases i with
    | zero =>
      cases j with
      | zero => exact absurd rfl h
      | succ m => rfl
    | succ n =>
      cases j with
      | zero => rfl
      | succ m => exact ih n m (fun hc => h (by rw [hc]))

theorem lSet_length {β : Type} (l : List β) (i : Nat) (v : β) :
    (lSet l i v).length = l.length := by
  induction l generalizing i with
  | nil => rfl
  | cons a t ih =>
    cases i with
    | zero => rfl
    | succ n => simpa [lSet] using ih n

theorem lSet_lSet {β : Type} (l : List β) (i : Nat) (v w : β) :
    lSet (lSet l i v) i w = lSet l i w := by
  induction l generalizing i with
  | nil => rfl
  | cons a t ih =>
    cases i with
    | zero => rfl
    | succ n => simpa [lSet] using ih n

theorem lSet_same {β : Type} (l : List β) (i : Nat) (v : β)
    (h : lGet l i = some v) : lSet l i v = l := by
  induction l generalizing i with
  | nil => rfl
  | cons a t ih =>
    cases i with
    | zero =>
      simp [lGet] at h
      simp [lSet, h]
    | succ n =>
      simp [lGet] at h
      simp [lSet, ih n h]

theorem lGet_append_lt {β : Type} (l t : List β) (i : Nat) (h : i < l.length) :
    lGet (l ++ t) i = lGet l i := by
  induction l generalizing i with
  | nil => simp at h
  | cons a s ih =>
    cases i with
    | zero => rfl
    | succ n => exact ih n (by simpa using h)

theorem lGet_append_len {β : Type} (l : List β) (v : β) :
    lGet (l ++ [v]) l.length = some v := by
  induction l with
  | nil => rfl
  | cons a s ih => simpa [lGet] using ih

theorem lSet_append_lt {β : Type} (l t : List β) (i : Nat) (v : β)
    (h : i < l.length) : lSet (l ++ t) i v = lSet l i v ++ t := by
  induction l generalizing i with
  | nil => simp at h
  | cons a s ih =>
    cases i with
    | zero => rfl
    | succ n => simpa [lSet] using ih n (by simpa using h)

theorem countRefs_append (l t : List Handle) (id : Nat) :
    countRefs (l ++ t) id = countRefs l id + countRefs t id := by
  induction l with
  | nil => simp [countRefs]
  | cons a s ih => simp [countRefs, ih]; omega

theorem countRefs_le_length (l : List Handle) (id : Nat) :
    countRefs l id ≤ l.length := by
  induction l with
  | nil => simp [countRefs]
  | cons a s ih =>
    simp only [countRefs, List.length_cons]
    by_cases h : a = some id <;> simp [h] <;> omega

theorem countRefs_pos_of_lGet (l : List Handle) (i id : Nat)
    (h : lGet l i = some (some id)) : 0 < countRefs l id := by
  induction l generalizing i with
  | nil => simp [lGet] at h
  | cons a t ih =>
    cases i with
    | zero =>
      simp [lGet] at h
      simp [countRefs, h]
    | succ n =>
      have := ih n (by simpa [lGet] using h)
      simp only [countRefs]
      omega

theorem countRefs_lSet :
    ∀ (l : List Handle) (i : Nat) (a a' : Handle) (id : Nat),
      lGet l i = some a →
      countRefs (lSet l i a') id + (if a = some id then 1 else 0) =
        countRefs l id + (if a' = some id then 1 else 0)
  | [], i, a, a', id, h => by simp [lGet] at h
  | b :: t, 0, a, a', id, h => by
    simp [lGet] at h
    subst h
    simp only [lSet, countRefs]
    omega
  | b :: t, n + 1, a, a', id, h => by
    have := countRefs_lSet t n a a' id (by simpa [lGet] using h)
    simp only [lSet, countRefs]
    omega

theorem countRefs_lDel :
    ∀ (l : List Handle) (i : Nat) (a : Handle) (id : Nat),
      lGet l i = some a →
      countRefs (lDel l i) id + (if a = some id then 1 else 0) = countRefs l id
  | [], i, a, id, h => by simp [lGet] at h
  | b :: t, 0, a, id, h => by
    simp [lGet] at h
    subst h
    simp only [lDel, countRefs]
    omega
  | b :: t, n + 1, a, id, h => by
    have := countRefs_lDel t n a id (by simpa [lGet] using h)
    simp only [lDel, countRefs]
    omega

theorem hLookup_lt_length {α : Type} (heap : Heap α) (id : Nat) (b : Block α)
    (h : hLookup heap id = some b) : id < heap.length := by
  unfold hLookup at h
  cases hg : lGet heap id with
  | none => rw [hg] at h; simp at h
  | some v => exact lGet_lt_length heap id v hg

theorem hLookup_none_of_le {α : Type} (heap : Heap α) (id : Nat)
    (h : heap.length ≤ id) : hLookup heap id = none := by
  unfold hLookup
  rw [lGet_none_of_le heap id h]

theorem hLookup_hSet_self {α : Type} (heap : Heap α) (id : Nat)
    (v : Option (Block α)) (h : id < heap.length) :
    hLookup (hSet heap id v) id = v := by
  unfold hLookup hSet
  rw [lGet_lSet_self heap id v h]

theorem hLookup_hSet_ne {α : Type} (heap : Heap α) (id j : Nat)
    (v : Option (Block α)) (h : id ≠ j) :
    hLookup (hSet heap id v) j = hLookup heap j := by
  unfold hLookup hSet
  rw [lGet_lSet_ne heap id j v h]

theorem hSet_length {α : Type} (heap : Heap α) (id : Nat) (v : Option (Block α)) :
    (hSet heap id v).length = heap.length :=
  lSet_length heap id v

theorem hLookup_append_lt {α : Type} (heap t : Heap α) (id : Nat)
    (h : id < heap.length) : hLookup (heap ++ t) id = hLookup heap id := by
  unfold hLookup
  rw [lGet_append_lt heap t id h]

theorem hLookup_append_len {α : Type} (heap : Heap α) (v : Option (Block α)) :
    hLookup (heap ++ [v]) heap.length = v := by
  unfold hLookup
  rw [lGet_append_len heap v]

theorem release_live {α : Type} (heap : Heap α) (x : Nat) (b : Block α)
    (hb : hLookup heap x = some b) (h1 : 0 < b.refCount)
    (h2 : b.refCount < uintMod) :
    release heap (some x) =
      (if b.refCount = 1 then hSet heap x none
       else hSet heap x (some { b with refCount := b.refCount - 1 }),
       if b.refCount = 1 then [Ev.unrefE x, Ev.destroyE x] else [Ev.unrefE x]) := by
  unfold release
  simp only []
  rw [hb]
  simp only [unref_fst b h1 h2, unref_snd b h1 h2]
  by_cases hc : b.refCount = 1
  · simp [hc, destroy, hSet, lSet_lSet]
  · simp [hc]

theorem copyConstruct_live {α : Type} (heap : Heap α) (y : Nat) (b : Block α)
    (hb : hLookup heap y = some b) :
    copyConstruct heap (some y) = (hSet heap y (some b.ref), some y, [Ev.refE y]) := by
  unfold copyConstruct
  simp only []
  rw [hb]

theorem modify_shared {α : Type} (heap : Heap α) (x : Nat) (b : Block α)
    (hb : hLookup heap x = some b) (h2 : 2 ≤ b.refCount)
    (h3 : b.refCount < uintMod) :
    modifyA stdAlloc heap (some x) =
      (hSet (heap ++ [some ⟨1, b.size, b.elements⟩]) x
         (some { b with refCount := b.refCount - 1 }),
       some heap.length,
       [Ev.allocE heap.length, Ev.unrefE x]) := by
  have hx : x < heap.length := hLookup_lt_length heap x b hb
  have hb' : hLookup (heap ++ [some ⟨1, b.size, b.elements⟩]) x = some b := by
    rw [hLookup_append_lt _ _ _ hx]
    exact hb
  have hne : ¬ b.refCount = 1 := by omega
  unfold modifyA
  simp only []
  rw [hb]
  simp only [hne, if_false, stdAlloc,
    release_live _ x b hb' (by omega) h3]

/-- C8: for every heap and every non-negative size n, sized construction
yields a handle for which `isValid()` returns true and `getSize()` returns
n. -/
theorem sized_construction_valid_size {α : Type} [Inhabited α]
    (heap : Heap α) (n : Nat) :
    isValid (constructSized heap n).2 = true ∧
    getSize (constructSized heap n).1 (constructSized heap n).2 = n := by
  refine ⟨rfl, ?_⟩
  simp only [constructSized, create, getSize, hLookup_append_len]

/-- C4: self-assignment is an identity for every handle, valid or not: the
heap, the handle and the event trace (no ref, no unref, no destroy) are all
unchanged, because the identical-header case is detected first. -/
theorem self_assign_noop {α : Type} (heap : Heap α) (h : Handle) :
    assign heap h h = (heap, h, []) := by
  simp [assign]

/-- C9: allocation-failure atomicity.  With a failing allocator, `modify()`
returns the heap and the handle exactly as they were with no release event,
and sized construction produces no handle and leaves the heap untouched,
because the new block is fully allocated before any existing block is
released. -/
theorem alloc_failure_atomic {α : Type} [Inhabited α] (heap : Heap α)
    (h : Handle) (n : Nat) :
    modifyA noAlloc heap h = (heap, h, []) ∧
    constructSizedA noAlloc heap n = (heap, none) := by
  refine ⟨?_, rfl⟩
  cases h with
  | none => rfl
  | some id =>
    unfold modifyA
    simp only []
    cases hl : hLookup heap id with
    | none => simp
    | some b => by_cases hc : b.refCount = 1 <;> simp [noAlloc, hc]

/-- C6: `unref()` decrements `refCount` by exactly 1 and returns true if and
only if the post-decrement value is exactly zero, as a single fused
decrement-and-test on the value returned by the atomic decrement. -/
theorem unref_decrement_and_test {α : Type} (b : Block α)
    (h1 : 0 < b.refCount) (h2 : b.refCount < uintMod) :
    (b.unref).1.refCount = b.refCount - 1 ∧
    ((b.unref).2 = true ↔ (b.unref).1.refCount = 0) ∧
    (b.unref).1.size = b.size ∧ (b.unref).1.elements = b.elements := by
  have hf := unref_fst b h1 h2
  have hs := unref_snd b h1 h2
  refine ⟨?_, ?_, ?_, ?_⟩
  · rw [hf]
  · rw [hs, hf]
    simp only [decide_eq_true_eq]
    omega
  · rw [hf]
  · rw [hf]

theorem unref_decrement_and_test_witness :
    ((⟨2, 2, [5, 6]⟩ : Block Nat).unref).1.refCount = 2 - 1 ∧
    (((⟨2, 2, [5, 6]⟩ : Block Nat).unref).2 = true ↔
      ((⟨2, 2, [5, 6]⟩ : Block Nat).unref).1.refCount = 0) ∧
    ((⟨2, 2, [5, 6]⟩ : Block Nat).unref).1.size = 2 ∧
    ((⟨2, 2, [5, 6]⟩ : Block Nat).unref).1.elements = [5, 6] :=
  unref_decrement_and_test (⟨2, 2, [5, 6]⟩ : Block Nat) (by decide) (by decide)

/-- C3: calling `modify()` on a handle whose block has reference count
exactly 1 changes nothing: the heap (so no new block, same storage, same
size, same elements, same reference count), the handle's block pointer and
the event trace are all unchanged. -/
theorem modify_exclusive_noop {α : Type} (heap : Heap α) (x : Nat)
    (b : Block α) (hb : hLookup heap x = some b) (h1 : b.refCount = 1) :
    modifyA stdAlloc heap (some x) = (heap, some x, []) ∧
    modifyOp heap (some x) = (heap, some x) := by
  have hm : modifyA stdAlloc heap (some x) = (heap, some x, []) := by
    unfold modifyA
    simp only []
    rw [hb]
    simp [h1]
  exact ⟨hm, by simp [modifyOp, hm]⟩

theorem modify_exclusive_noop_witness :
    modifyA stdAlloc ([some ⟨1, 2, [7, 8]⟩] : Heap Nat) (some 0) =
      ([some ⟨1, 2, [7, 8]⟩], some 0, []) ∧
    modifyOp ([some ⟨1, 2, [7, 8]⟩] : Heap Nat) (some 0) =
      ([some ⟨1, 2, [7, 8]⟩], some 0) :=
  modify_exclusive_noop ([some ⟨1, 2, [7, 8]⟩] : Heap Nat) 0 ⟨1, 2, [7, 8]⟩
    (by rfl) (by rfl)

/-- C5: assigning a handle that references block `x` from a handle that
references a different block `y` first unrefs `x` (destroying it exactly
when its count reached zero, i.e. was 1), then adopts and refs `y`; `x`'s
count drops by exactly 1, `y`'s count rises by exactly 1, and the event
trace shows the release of `x` strictly before the ref of `y`. -/
theorem assign_different_blocks {α : Type} (heap : Heap α) (x y : Nat)
    (bx bY : Block α) (hbx : hLookup heap x = some bx)
    (hby : hLookup heap y = some bY) (hxy : x ≠ y)
    (h1 : 0 < bx.refCount) (h2 : bx.refCount < uintMod)
    (h3 : bY.refCount + 1 < uintMod) :
    assign heap (some x) (some y) =
      (hSet (if bx.refCount = 1 then hSet heap x none
             else hSet heap x (some { bx with refCount := bx.refCount - 1 }))
         y (some { bY with refCount := bY.refCount + 1 }),
       some y,
       (if bx.refCount = 1 then [Ev.unrefE x, Ev.destroyE x]
        else [Ev.unrefE x]) ++ [Ev.refE y]) := by
  have hds : (some x : Handle) ≠ some y := by simp [hxy]
  have hrel := release_live heap x bx hbx h1 h2
  have hby1 : hLookup (if bx.refCount = 1 then hSet heap x none
      else hSet heap x (some { bx with refCount := bx.refCount - 1 })) y
      = some bY := by
    by_cases hc : bx.refCount = 1 <;> simp [hc, hLookup_hSet_ne heap x y _ hxy, hby]
  have hcc := copyConstruct_live _ y bY hby1
  have hr : bY.ref = { bY with refCount := bY.refCount + 1 } := by
    simp [Block.ref, preAdd_one bY.refCount h3]
  unfold assign
  rw [if_neg hds, hrel]
  simp only [hcc, hr]

theorem assign_different_blocks_witness :
    assign ([some ⟨1, 1, [5]⟩, some ⟨2, 1, [7]⟩] : Heap Nat) (some 0) (some 1) =
      (hSet (if (1 : Nat) = 1 then hSet ([some ⟨1, 1, [5]⟩, some ⟨2, 1, [7]⟩] : Heap Nat) 0 none
             else hSet ([some ⟨1, 1, [5]⟩, some ⟨2, 1, [7]⟩] : Heap Nat) 0
               (some ⟨1 - 1, 1, [5]⟩))
         1 (some ⟨2 + 1, 1, [7]⟩),
       some 1,
       (if (1 : Nat) = 1 then [Ev.unrefE 0, Ev.destroyE 0]
        else [Ev.unrefE 0]) ++ [Ev.refE 1]) :=
  assign_different_blocks ([some ⟨1, 1, [5]⟩, some ⟨2, 1, [7]⟩] : Heap Nat)
    0 1 ⟨1, 1, [5]⟩ ⟨2, 1, [7]⟩ (by rfl) (by rfl) (by decide) (by decide)
    (by decide) (by decide)

/-- C10: behavior on invalid handles — copy-constructing an invalid handle
yields an invalid handle and performs no reference-count event; destroying
an invalid handle performs no unref or destroy; assigning an invalid handle
from an invalid handle is a no-op; assigning a valid handle from an invalid
source releases the old block (destroying it exactly when its count was 1)
and leaves the target invalid. -/
theorem invalid_handle_totality {α : Type} (heap : Heap α) (x : Nat)
    (bx : Block α) (hb : hLookup heap x = some bx)
    (h1 : 0 < bx.refCount) (h2 : bx.refCount < uintMod) :
    copyConstruct heap (none : Handle) = (heap, none, []) ∧
    release heap (none : Handle) = (heap, []) ∧
    assign heap (none : Handle) none = (heap, none, []) ∧
    assign heap (some x) none =
      (if bx.refCount = 1 then hSet heap x none
       else hSet heap x (some { bx with refCount := bx.refCount - 1 }),
       none,
       if bx.refCount = 1 then [Ev.unrefE x, Ev.destroyE x]
       else [Ev.unrefE x]) := by
  refine ⟨rfl, rfl, by simp [assign], ?_⟩
  have hds : (some x : Handle) ≠ none := by simp
  unfold assign
  rw [if_neg hds, release_live heap x bx hb h1 h2]
  simp [copyConstruct]

theorem invalid_handle_totality_witness :
    copyConstruct ([some ⟨1, 1, [5]⟩] : Heap Nat) (none : Handle) =
      ([some ⟨1, 1, [5]⟩], none, []) ∧
    release ([some ⟨1, 1, [5]⟩] : Heap Nat) (none : Handle) =
      ([some ⟨1, 1, [5]⟩], []) ∧
    assign ([some ⟨1, 1, [5]⟩] : Heap Nat) (none : Handle) none =
      ([some ⟨1, 1, [5]⟩], none, []) ∧
    assign ([some ⟨1, 1, [5]⟩] : Heap Nat) (some 0) none =
      (if (1 : Nat) = 1 then hSet ([some ⟨1, 1, [5]⟩] : Heap Nat) 0 none
       else hSet ([some ⟨1, 1, [5]⟩] : Heap Nat) 0 (some ⟨1 - 1, 1, [5]⟩),
       none,
       if (1 : Nat) = 1 then [Ev.unrefE 0, Ev.destroyE 0]
       else [Ev.unrefE 0]) :=
  invalid_handle_totality ([some ⟨1, 1, [5]⟩] : Heap Nat) 0 ⟨1, 1, [5]⟩
    (by rfl) (by decide) (by decide)

/-- C2 counterexample: on a shared block (reference count 2), a write
through the reference returned by the non-const `operator[]` is not the
same as first invoking `modify()` and then writing — the code mutates the
shared block in place (the aliasing co-owner observes the new value), so
the non-const accessors do not invoke `modify()` first. -/
theorem mutating_accessor_modify_cex :
    writeElem ([some ⟨2, 1, [5]⟩] : Heap Nat) (some 0) 0 99 ≠
      writeElem (modifyOp ([some ⟨2, 1, [5]⟩] : Heap Nat) (some 0)).1
        (modifyOp ([some ⟨2, 1, [5]⟩] : Heap Nat) (some 0)).2 0 99 ∧
    getConst (writeElem ([some ⟨2, 1, [5]⟩] : Heap Nat) (some 0) 0 99)
      (some 0) 0 = 99 := by
  decide

/-- C2 amended: only `set(index,value)` first invokes `modify()` — on a
shared block it moves the handle to a fresh exclusively-owned copy holding
the new value and leaves the old block's elements untouched (count dropped
by 1) — while the non-const `getArray()` / `operator[]` access the current
block directly without invoking `modify()` (a prior `modify()` call is a
documented caller precondition), so a write through them mutates the
possibly-shared block in place. -/
theorem mutating_accessor_modify_amended {α : Type} [Inhabited α]
    (heap : Heap α) (x : Nat) (b : Block α) (i : Nat) (v : α)
    (hb : hLookup heap x = some b) (h2 : 2 ≤ b.refCount)
    (h3 : b.refCount < uintMod) :
    (setElem heap (some x) i v).2 = some heap.length ∧
    hLookup (setElem heap (some x) i v).1 x =
      some { b with refCount := b.refCount - 1 } ∧
    hLookup (setElem heap (some x) i v).1 heap.length =
      some ⟨1, b.size, b.elements.set i v⟩ ∧
    writeElem heap (some x) i v =
      hSet heap x (some { b with elements := b.elements.set i v }) := by
  have hx : x < heap.length := hLookup_lt_length heap x b hb
  have hmod := modify_shared heap x b hb h2 h3
  have hop : modifyOp heap (some x) =
      (hSet (heap ++ [some ⟨1, b.size, b.elements⟩]) x
         (some { b with refCount := b.refCount - 1 }),
       some heap.length) := by
    simp [modifyOp, hmod]
  have hlen1 : x < (heap ++ [(some ⟨1, b.size, b.elements⟩ : Option (Block α))]).length := by
    simp
    omega
  have hlook : hLookup (hSet (heap ++ [some ⟨1, b.size, b.elements⟩]) x
      (some { b with refCount := b.refCount - 1 })) heap.length =
      some ⟨1, b.size, b.elements⟩ := by
    rw [hLookup_hSet_ne _ x heap.length _ (by omega)]
    exact hLookup_append_len heap _
  have hse : setElem heap (some x) i v =
      (hSet (hSet (heap ++ [some ⟨1, b.size, b.elements⟩]) x
          (some { b with refCount := b.refCount - 1 })) heap.length
        (some ⟨1, b.size, b.elements.set i v⟩),
       some heap.length) := by
    unfold setElem
    rw [hop]
    simp only [writeElem, hlook]
  refine ⟨by rw [hse], ?_, ?_, ?_⟩
  · rw [hse]
    simp only []
    rw [hLookup_hSet_ne _ heap.length x _ (by omega)]
    rw [hLookup_hSet_self _ x _ hlen1]
  · rw [hse]
    simp only []
    rw [hLookup_hSet_self]
    rw [hSet_length]
    simp
  · unfold writeElem
    simp only []
    rw [hb]

theorem mutating_accessor_modify_amended_witness :
    (setElem ([some ⟨2, 1, [5]⟩] : Heap Nat) (some 0) 0 99).2 =
      some ([some (⟨2, 1, [5]⟩ : Block Nat)] : Heap Nat).length ∧
    hLookup (setElem ([some ⟨2, 1, [5]⟩] : Heap Nat) (some 0) 0 99).1 0 =
      some ⟨2 - 1, 1, [5]⟩ ∧
    hLookup (setElem ([some ⟨2, 1, [5]⟩] : Heap Nat) (some 0) 0 99).1
      ([some (⟨2, 1, [5]⟩ : Block Nat)] : Heap Nat).length =
      some ⟨1, 1, [5].set 0 99⟩ ∧
    writeElem ([some ⟨2, 1, [5]⟩] : Heap Nat) (some 0) 0 99 =
      hSet ([some ⟨2, 1, [5]⟩] : Heap Nat) 0 (some ⟨2, 1, [5].set 0 99⟩) :=
  mutating_accessor_modify_amended ([some ⟨2, 1, [5]⟩] : Heap Nat) 0
    ⟨2, 1, [5]⟩ 0 99 (by rfl) (by decide) (by decide)

set_option synthInstance.maxSize 5000 in
/-- C1: the copy-on-write isolation scenario.  A handle A of size 3 is
filled with [1,2,3]; B is a copy of A; after `B.set(0,99)` A reads 1 at
index 0 while B reads 99, index 1 reads 2 through both; after A is
destroyed B remains valid with size 3 and elements [99,2,3]. -/
theorem cow_isolation_scenario :
    constructSized ([] : Heap Nat) 3 = ([some ⟨1, 3, [0, 0, 0]⟩], some 0) ∧
    setElem ([some ⟨1, 3, [0, 0, 0]⟩] : Heap Nat) (some 0) 0 1 =
      ([some ⟨1, 3, [1, 0, 0]⟩], some 0) ∧
    setElem ([some ⟨1, 3, [1, 0, 0]⟩] : Heap Nat) (some 0) 1 2 =
      ([some ⟨1, 3, [1, 2, 0]⟩], some 0) ∧
    setElem ([some ⟨1, 3, [1, 2, 0]⟩] : Heap Nat) (some 0) 2 3 =
      ([some ⟨1, 3, [1, 2, 3]⟩], some 0) ∧
    copyConstruct ([some ⟨1, 3, [1, 2, 3]⟩] : Heap Nat) (some 0) =
      ([some ⟨2, 3, [1, 2, 3]⟩], some 0, [Ev.refE 0]) ∧
    setElem ([some ⟨2, 3, [1, 2, 3]⟩] : Heap Nat) (some 0) 0 99 =
      ([some ⟨1, 3, [1, 2, 3]⟩, some ⟨1, 3, [99, 2, 3]⟩], some 1) ∧
    getConst ([some ⟨1, 3, [1, 2, 3]⟩, some ⟨1, 3, [99, 2, 3]⟩] : Heap Nat)
      (some 0) 0 = 1 ∧
    getConst ([some ⟨1, 3, [1, 2, 3]⟩, some ⟨1, 3, [99, 2, 3]⟩] : Heap Nat)
      (some 1) 0 = 99 ∧
    getConst ([some ⟨1, 3, [1, 2, 3]⟩, some ⟨1, 3, [99, 2, 3]⟩] : Heap Nat)
      (some 0) 1 = 2 ∧
    getConst ([some ⟨1, 3, [1, 2, 3]⟩, some ⟨1, 3, [99, 2, 3]⟩] : Heap Nat)
      (some 1) 1 = 2 ∧
    release ([some ⟨1, 3, [1, 2, 3]⟩, some ⟨1, 3, [99, 2, 3]⟩] : Heap Nat)
      (some 0) =
      ([none, some ⟨1, 3, [99, 2, 3]⟩], [Ev.unrefE 0, Ev.destroyE 0]) ∧
    isValid (some 1) = true ∧
    getSize ([none, some ⟨1, 3, [99, 2, 3]⟩] : Heap Nat) (some 1) = 3 ∧
    getConst ([none, some ⟨1, 3, [99, 2, 3]⟩] : Heap Nat) (some 1) 0 = 99 ∧
    getConst ([none, some ⟨1, 3, [99, 2, 3]⟩] : Heap Nat) (some 1) 1 = 2 ∧
    getConst ([none, some ⟨1, 3, [99, 2, 3]⟩] : Heap Nat) (some 1) 2 = 3 := by
  decide

theorem unref_fst_eq {α : Type} (b : Block α) :
    (b.unref).1 = { b with refCount := preSub b.refCount 1 } := rfl

theorem ref_eq {α : Type} (b : Block α) :
    b.ref = { b with refCount := preAdd b.refCount 1 } := rfl

theorem countRefs_singleton (h : Handle) (id : Nat) :
    countRefs [h] id = if h = some id then 1 else 0 := by
  simp [countRefs]

theorem lDel_length_le {β : Type} (l : List β) (i : Nat) :
    (lDel l i).length ≤ l.length := by
  induction l generalizing i with
  | nil => simp [lDel]
  | cons a t ih =>
    cases i with
    | zero => simp [lDel]
    | succ n =>
      simp only [lDel, List.length_cons]
      exact Nat.succ_le_succ (ih n)

theorem Evolves_refl {α : Type} (heap : Heap α) : Evolves heap heap :=
  ⟨Nat.le_refl _, fun _ => Or.inl rfl⟩

theorem Evolves_trans {α : Type} (h1 h2 h3 : Heap α)
    (e12 : Evolves h1 h2) (e23 : Evolves h2 h3) : Evolves h1 h3 := by
  obtain ⟨l12, p12⟩ := e12
  obtain ⟨l23, p23⟩ := e23
  refine ⟨Nat.le_trans l12 l23, fun id => ?_⟩
  rcases p23 id with h23 | h23 | ⟨b, r, hb, hb'⟩ | ⟨hn, hl⟩
  · rw [h23]
    exact p12 id
  · exact Or.inr (Or.inl h23)
  · rcases p12 id with h12 | h12 | ⟨b0, r0, hb0, hb0'⟩ | ⟨hn0, hl0⟩
    · rw [h12] at hb
      exact Or.inr (Or.inr (Or.inl ⟨b, r, hb, hb'⟩))
    · rw [h12] at hb
      exact absurd hb (by simp)
    · rw [hb0'] at hb
      cases hb
      exact Or.inr (Or.inr (Or.inl ⟨b0, r, hb0, hb'⟩))
    · exact Or.inr (Or.inr (Or.inr ⟨hn0, hl0⟩))
  · have hle : h1.length ≤ id := Nat.le_trans l12 hl
    exact Or.inr (Or.inr (Or.inr ⟨hLookup_none_of_le h1 id hle, hle⟩))

theorem evolves_append {α : Type} (heap t : Heap α) : Evolves heap (heap ++ t) := by
  refine ⟨by simp, fun id => ?_⟩
  by_cases h : id < heap.length
  · exact Or.inl (hLookup_append_lt heap t id h)
  · exact Or.inr (Or.inr (Or.inr ⟨hLookup_none_of_le heap id (by omega), by omega⟩))

theorem evolves_hSet_none {α : Type} (heap : Heap α) (x : Nat) (b : Block α)
    (hb : hLookup heap x = some b) : Evolves heap (hSet heap x none) := by
  have hx : x < heap.length := hLookup_lt_length heap x b hb
  refine ⟨by rw [hSet_length], fun id => ?_⟩
  by_cases hc : id = x
  · subst hc
    exact Or.inr (Or.inl (hLookup_hSet_self heap id none hx))
  · exact Or.inl (hLookup_hSet_ne heap x id none (fun he => hc he.symm))

theorem evolves_hSet_refCount {α : Type} (heap : Heap α) (x : Nat) (b : Block α)
    (r : Nat) (hb : hLookup heap x = some b) :
    Evolves heap (hSet heap x (some { b with refCount := r })) := by
  have hx : x < heap.length := hLookup_lt_length heap x b hb
  refine ⟨by rw [hSet_length], fun id => ?_⟩
  by_cases hc : id = x
  · subst hc
    exact Or.inr (Or.inr (Or.inl ⟨b, r, hb, hLookup_hSet_self heap id _ hx⟩))
  · exact Or.inl (hLookup_hSet_ne heap x id _ (fun he => hc he.symm))

theorem release_evolves {α : Type} (heap : Heap α) (h : Handle) :
    Evolves heap (release heap h).1 := by
  cases h with
  | none => exact Evolves_refl heap
  | some x =>
    unfold release
    simp only []
    cases hb : hLookup heap x with
    | none => exact Evolves_refl heap
    | some b =>
      by_cases hu : (b.unref).2 = true
      · simp only [hu, if_true]
        rw [show destroy (hSet heap x (some (b.unref).1)) x = hSet heap x none from
          lSet_lSet heap x _ none]
        exact evolves_hSet_none heap x b hb
      · simp only [hu, if_false]
        rw [unref_fst_eq b]
        exact evolves_hSet_refCount heap x b _ hb

theorem copyConstruct_evolves {α : Type} (heap : Heap α) (src : Handle) :
    Evolves heap (copyConstruct heap src).1 := by
  cases src with
  | none => exact Evolves_refl heap
  | some y =>
    unfold copyConstruct
    simp only []
    cases hb : hLookup heap y with
    | none => exact Evolves_refl heap
    | some b =>
      simp only []
      rw [ref_eq b]
      exact evolves_hSet_refCount heap y b _ hb

theorem assign_evolves {α : Type} (heap : Heap α) (dst src : Handle) :
    Evolves heap (assign heap dst src).1 := by
  by_cases he : dst = src
  · simp only [assign, he, if_true]
    exact Evolves_refl heap
  · simp only [assign, he, if_false]
    exact Evolves_trans _ _ _ (release_evolves heap dst)
      (copyConstruct_evolves (release heap dst).1 src)

theorem modifyOp_evolves {α : Type} (heap : Heap α) (h : Handle) :
    Evolves heap (modifyOp heap h).1 := by
  cases h with
  | none => exact Evolves_refl heap
  | some x =>
    unfold modifyOp modifyA
    simp only []
    cases hb : hLookup heap x with
    | none => exact Evolves_refl heap
    | some b =>
      by_cases hc : b.refCount = 1
      · simp only [hc, if_true]
        exact Evolves_refl heap
      · simp only [hc, if_false, stdAlloc]
        exact Evolves_trans _ _ _
          (evolves_append heap [some ⟨1, b.size, b.elements⟩])
          (release_evolves (heap ++ [some ⟨1, b.size, b.elements⟩]) (some x))

theorem step_evolves {α : Type} [Inhabited α] (s : SysState α) (op : Op) :
    Evolves s.heap (step s op).heap := by
  cases op with
  | constructInvalid => exact Evolves_refl s.heap
  | construct n =>
    simp only [step, constructSized, create]
    exact evolves_append s.heap _
  | copy i =>
    cases hg : lGet s.handles i with
    | none => simp only [step, hg]; exact Evolves_refl s.heap
    | some hd => simp only [step, hg]; exact copyConstruct_evolves s.heap hd
  | assignOp i j =>
    cases hgi : lGet s.handles i with
    | none => simp only [step, hgi]; exact Evolves_refl s.heap
    | some d =>
      cases hgj : lGet s.handles j with
      | none => simp only [step, hgi, hgj]; exact Evolves_refl s.heap
      | some sc => simp only [step, hgi, hgj]; exact assign_evolves s.heap d sc
  | modifyStep i =>
    cases hg : lGet s.handles i with
    | none => simp only [step, hg]; exact Evolves_refl s.heap
    | some hd => simp only [step, hg]; exact modifyOp_evolves s.heap hd
  | destroyH i =>
    cases hg : lGet s.handles i with
    | none => simp only [step, hg]; exact Evolves_refl s.heap
    | some hd => simp only [step, hg]; exact release_evolves s.heap hd

theorem evolves_size_elements {α : Type} (h1 h2 : Heap α) (e : Evolves h1 h2)
    (id : Nat) (b b' : Block α) (hb : hLookup h1 id = some b)
    (hb' : hLookup h2 id = some b') :
    b'.size = b.size ∧ b'.elements = b.elements := by
  rcases e.2 id with h | h | ⟨b0, r, hb0, hb0'⟩ | ⟨hn, _⟩
  · rw [h, hb] at hb'
    cases hb'
    exact ⟨rfl, rfl⟩
  · rw [h] at hb'
    cases hb'
  · rw [hb0] at hb
    cases hb
    rw [hb0'] at hb'
    cases hb'
    exact ⟨rfl, rfl⟩
  · rw [hn] at hb
    cases hb

theorem evolves_dead {α : Type} (h1 h2 : Heap α) (e : Evolves h1 h2) (id : Nat)
    (hdead : hLookup h1 id = none) (hlt : id < h1.length) :
    hLookup h2 id = none := by
  rcases e.2 id with h | h | ⟨b0, r, hb0, hb0'⟩ | ⟨hn, hl⟩
  · rw [h, hdead]
  · exact h
  · rw [hb0] at hdead
    cases hdead
  · omega

theorem release_destroys_one {α : Type} (heap : Heap α) (h : Handle) (id : Nat)
    (b : Block α) (hb : hLookup heap id = some b)
    (hins : ∀ x bx, h = some x → hLookup heap x = some bx →
      0 < bx.refCount ∧ bx.refCount < uintMod)
    (hd : hLookup (release heap h).1 id = none) : b.refCount = 1 := by
  cases h with
  | none =>
    unfold release at hd
    simp only [] at hd
    rw [hb] at hd
    simp at hd
  | some x =>
    cases hbx : hLookup heap x with
    | none =>
      unfold release at hd
      simp only [] at hd
      rw [hbx] at hd
      simp only [] at hd
      rw [hb] at hd
      simp at hd
    | some bx =>
      obtain ⟨hp, hm⟩ := hins x bx rfl hbx
      rw [release_live heap x bx hbx hp hm] at hd
      simp only [] at hd
      by_cases hcx : id = x
      · subst hcx
        have hbb : bx = b := by
          rw [hbx] at hb
          exact Option.some.inj hb
        subst hbb
        by_cases hc1 : bx.refCount = 1
        · exact hc1
        · rw [if_neg hc1] at hd
          rw [hLookup_hSet_self _ _ _ (hLookup_lt_length heap id bx hb)] at hd
          simp at hd
      · by_cases hc1 : bx.refCount = 1
        · rw [if_pos hc1] at hd
          rw [hLookup_hSet_ne heap x id none (fun he => hcx he.symm)] at hd
          rw [hb] at hd
          simp at hd
        · rw [if_neg hc1] at hd
          rw [hLookup_hSet_ne heap x id _ (fun he => hcx he.symm)] at hd
          rw [hb] at hd
          simp at hd

theorem copy_none_inv {α : Type} (heap : Heap α) (src : Handle) (id : Nat)
    (hd : hLookup (copyConstruct heap src).1 id = none) :
    hLookup heap id = none := by
  cases src with
  | none => exact hd
  | some y =>
    unfold copyConstruct at hd
    simp only [] at hd
    cases hby : hLookup heap y with
    | none =>
      rw [hby] at hd
      simp only [] at hd
      exact hd
    | some b =>
      rw [hby] at hd
      simp only [] at hd
      by_cases hcy : id = y
      · subst hcy
        rw [hLookup_hSet_self _ _ _ (hLookup_lt_length heap id b hby)] at hd
        simp at hd
      · rw [hLookup_hSet_ne heap y id _ (fun he => hcy he.symm)] at hd
        exact hd

theorem inv_block_bounds {α : Type} (s : SysState α) (hInv : Inv s)
    (hlen : s.handles.length < uintMod) (x : Nat) (bx : Block α)
    (hbx : hLookup s.heap x = some bx) :
    0 < bx.refCount ∧ bx.refCount < uintMod := by
  obtain ⟨hc, hp⟩ := hInv.1 x bx hbx
  have := countRefs_le_length s.handles x
  exact ⟨hp, by omega⟩

theorem step_destroys_one {α : Type} [Inhabited α] (s : SysState α) (op : Op)
    (id : Nat) (b : Block α) (hInv : Inv s) (hlen : s.handles.length < uintMod)
    (hb : hLookup s.heap id = some b)
    (hd : hLookup (step s op).heap id = none) : b.refCount = 1 := by
  have hins : ∀ x bx, hLookup s.heap x = some bx →
      0 < bx.refCount ∧ bx.refCount < uintMod :=
    fun x bx hbx => inv_block_bounds s hInv hlen x bx hbx
  cases op with
  | constructInvalid =>
    simp only [step] at hd
    rw [hb] at hd
    simp at hd
  | construct n =>
    simp only [step, constructSized, create] at hd
    rw [hLookup_append_lt _ _ _ (hLookup_lt_length _ _ _ hb)] at hd
    rw [hb] at hd
    simp at hd
  | copy i =>
    cases hg : lGet s.handles i with
    | none =>
      simp only [step, hg] at hd
      rw [hb] at hd
      simp at hd
    | some hdl =>
      simp only [step, hg] at hd
      have := copy_none_inv s.heap hdl id hd
      rw [hb] at this
      simp at this
  | assignOp i j =>
    cases hgi : lGet s.handles i with
    | none =>
      simp only [step, hgi] at hd
      rw [hb] at hd
      simp at hd
    | some d =>
      cases hgj : lGet s.handles j with
      | none =>
        simp only [step, hgi, hgj] at hd
        rw [hb] at hd
        simp at hd
      | some sc =>
        simp only [step, hgi, hgj] at hd
        by_cases he : d = sc
        · simp only [assign, he, if_true] at hd
          rw [hb] at hd
          simp at hd
        · simp only [assign, he, if_false] at hd
          have h1 := copy_none_inv (release s.heap d).1 sc id hd
          exact release_destroys_one s.heap d id b hb
            (fun x bx _ hbx => hins x bx hbx) h1
  | modifyStep i =>
    cases hg : lGet s.handles i with
    | none =>
      simp only [step, hg] at hd
      rw [hb] at hd
      simp at hd
    | some hdl =>
      simp only [step, hg] at hd
      cases hdl with
      | none =>
        simp only [modifyOp, modifyA] at hd
        rw [hb] at hd
        simp at hd
      | some x =>
        simp only [modifyOp, modifyA] at hd
        cases hbx : hLookup s.heap x with
        | none =>
          rw [hbx] at hd
          simp only [] at hd
          rw [hb] at hd
          simp at hd
        | some bx =>
          rw [hbx] at hd
          simp only [] at hd
          by_cases hc1 : bx.refCount = 1
          · rw [if_pos hc1] at hd
            simp only [] at hd
            rw [hb] at hd
            simp at hd
          · rw [if_neg hc1] at hd
            simp only [stdAlloc] at hd
            have hble : id < s.heap.length := hLookup_lt_length _ _ _ hb
            have hxle : x < s.heap.length := hLookup_lt_length _ _ _ hbx
            refine release_destroys_one
              (s.heap ++ [some ⟨1, bx.size, bx.elements⟩]) (some x) id b
              ?_ ?_ hd
            · rw [hLookup_append_lt _ _ _ hble]
              exact hb
            · intro x' bx' hx' hbx'
              cases hx'
              rw [hLookup_append_lt _ _ _ hxle, hbx] at hbx'
              cases hbx'
              exact hins x bx hbx
  | destroyH i =>
    cases hg : lGet s.handles i with
    | none =>
      simp only [step, hg] at hd
      rw [hb] at hd
      simp at hd
    | some hdl =>
      simp only [step, hg] at hd
      exact release_destroys_one s.heap hdl id b hb
        (fun x bx _ hbx => hins x bx hbx) hd

theorem countRefs_push (hs : List Handle) (h : Handle) (id : Nat) :
    countRefs (hs ++ [h]) id = countRefs hs id + (if h = some id then 1 else 0) := by
  rw [countRefs_append, countRefs_singleton]

theorem refCount_update {α : Type} (b : Block α) (r : Nat) :
    ({ b with refCount := r } : Block α).refCount = r := rfl

theorem Inv_mk {α : Type} (heap : Heap α) (hs : List Handle) :
    Inv ⟨heap, hs⟩ ↔
      ((∀ id b, hLookup heap id = some b →
        b.refCount = countRefs hs id ∧ 0 < b.refCount) ∧
       (∀ id, 0 < countRefs hs id → ∃ b, hLookup heap id = some b)) :=
  Iff.rfl

theorem inv_push_none {α : Type} (heap : Heap α) (hs : List Handle)
    (hInv : Inv ⟨heap, hs⟩) : Inv ⟨heap, hs ++ [none]⟩ := by
  rw [Inv_mk] at hInv
  rw [Inv_mk]
  obtain ⟨h1, h2⟩ := hInv
  constructor
  · intro id b hb
    have h := h1 id b hb
    rw [countRefs_push]
    simpa using h
  · intro id hpos
    rw [countRefs_push] at hpos
    simp at hpos
    exact h2 id hpos

theorem inv_construct {α : Type} [Inhabited α] (heap : Heap α) (hs : List Handle)
    (n : Nat) (hInv : Inv ⟨heap, hs⟩) :
    Inv ⟨heap ++ [some ⟨1, n, List.replicate n default⟩],
         hs ++ [some heap.length]⟩ := by
  rw [Inv_mk] at hInv
  rw [Inv_mk]
  obtain ⟨h1, h2⟩ := hInv
  have hpast : countRefs hs heap.length = 0 := by
    by_contra h
    obtain ⟨b, hb⟩ := h2 heap.length (Nat.pos_of_ne_zero h)
    have := hLookup_lt_length _ _ _ hb
    omega
  constructor
  · intro id b hb
    rw [countRefs_push]
    by_cases hc : id = heap.length
    · subst hc
      rw [hLookup_append_len] at hb
      obtain rfl := Option.some.inj hb
      simp [hpast]
    · have hlt : id < heap.length := by
        have h' := hLookup_lt_length _ _ _ hb
        simp at h'
        omega
      rw [hLookup_append_lt _ _ _ hlt] at hb
      have h := h1 id b hb
      rw [if_neg (fun he => hc ((Option.some.inj he).symm))]
      omega
  · intro id hpos
    rw [countRefs_push] at hpos
    by_cases hc : id = heap.length
    · subst hc
      exact ⟨_, hLookup_append_len heap _⟩
    · rw [if_neg (fun he => hc ((Option.some.inj he).symm))] at hpos
      obtain ⟨b, hb⟩ := h2 id (by omega)
      exact ⟨b, by
        rw [hLookup_append_lt _ _ _ (hLookup_lt_length _ _ _ hb)]
        exact hb⟩

theorem inv_copy {α : Type} (heap : Heap α) (hs : List Handle) (x : Nat)
    (b : Block α) (hb : hLookup heap x = some b) (hInv : Inv ⟨heap, hs⟩)
    (hlen : hs.length + 1 < uintMod) :
    Inv ⟨hSet heap x (some b.ref), hs ++ [some x]⟩ := by
  rw [Inv_mk] at hInv
  rw [Inv_mk]
  obtain ⟨h1, h2⟩ := hInv
  have hxlt : x < heap.length := hLookup_lt_length _ _ _ hb
  have hcx := h1 x b hb
  have hcle := countRefs_le_length hs x
  have hradd : b.ref.refCount = b.refCount + 1 := by
    rw [ref_eq, refCount_update]
    exact preAdd_one b.refCount (by omega)
  constructor
  · intro id b' hb'
    rw [countRefs_push]
    by_cases hc : id = x
    · subst hc
      rw [hLookup_hSet_self _ _ _ hxlt] at hb'
      obtain rfl := Option.some.inj hb'
      rw [if_pos rfl]
      constructor
      · rw [hradd]
        omega
      · rw [hradd]
        omega
    · rw [hLookup_hSet_ne _ _ _ _ (fun he => hc he.symm)] at hb'
      have h := h1 id b' hb'
      rw [if_neg (fun he => hc ((Option.some.inj he).symm))]
      omega
  · intro id hpos
    rw [countRefs_push] at hpos
    by_cases hc : id = x
    · subst hc
      exact ⟨b.ref, hLookup_hSet_self _ _ _ hxlt⟩
    · rw [if_neg (fun he => hc ((Option.some.inj he).symm))] at hpos
      obtain ⟨b0, hb0⟩ := h2 id (by omega)
      exact ⟨b0, by
        rw [hLookup_hSet_ne _ _ _ _ (fun he => hc he.symm)]
        exact hb0⟩

theorem inv_destroyH {α : Type} (heap : Heap α) (hs : List Handle) (i : Nat)
    (hd : Handle) (hg : lGet hs i = some hd) (hInv : Inv ⟨heap, hs⟩)
    (hlen : hs.length < uintMod) :
    Inv ⟨(release heap hd).1, lDel hs i⟩ := by
  rw [Inv_mk] at hInv
  rw [Inv_mk]
  obtain ⟨h1, h2⟩ := hInv
  cases hd with
  | none =>
    constructor
    · intro id b hb
      have h := h1 id b hb
      have hcnt := countRefs_lDel hs i none id hg
      simp at hcnt
      rw [hcnt]
      exact h
    · intro id hpos
      have hcnt := countRefs_lDel hs i none id hg
      simp at hcnt
      rw [hcnt] at hpos
      exact h2 id hpos
  | some x =>
    have hxpos : 0 < countRefs hs x := countRefs_pos_of_lGet hs i x hg
    obtain ⟨bx, hbx⟩ := h2 x hxpos
    obtain ⟨hcx, hpx⟩ := h1 x bx hbx
    have hble := countRefs_le_length hs x
    have hxlt : x < heap.length := hLookup_lt_length _ _ _ hbx
    have hrel : (release heap (some x)).1 =
        (if bx.refCount = 1 then hSet heap x none
         else hSet heap x (some { bx with refCount := bx.refCount - 1 })) := by
      rw [release_live heap x bx hbx hpx (by omega)]
    by_cases hc1 : bx.refCount = 1
    · rw [hrel, if_pos hc1]
      constructor
      · intro id b hb
        have hcnt := countRefs_lDel hs i (some x) id hg
        by_cases hc : id = x
        · subst hc
          rw [hLookup_hSet_self _ _ _ hxlt] at hb
          simp at hb
        · rw [hLookup_hSet_ne _ _ _ _ (fun he => hc he.symm)] at hb
          have h := h1 id b hb
          rw [if_neg (fun he => hc ((Option.some.inj he).symm))] at hcnt
          constructor
          · omega
          · exact h.2
      · intro id hpos
        have hcnt := countRefs_lDel hs i (some x) id hg
        by_cases hc : id = x
        · subst hc
          rw [if_pos rfl] at hcnt
          exfalso
          omega
        · rw [if_neg (fun he => hc ((Option.some.inj he).symm))] at hcnt
          obtain ⟨b0, hb0⟩ := h2 id (by omega)
          exact ⟨b0, by
            rw [hLookup_hSet_ne _ _ _ _ (fun he => hc he.symm)]
            exact hb0⟩
    · rw [hrel, if_neg hc1]
      constructor
      · intro id b hb
        have hcnt := countRefs_lDel hs i (some x) id hg
        by_cases hc : id = x
        · subst hc
          rw [hLookup_hSet_self _ _ _ hxlt] at hb
          obtain rfl := Option.some.inj hb
          rw [if_pos rfl] at hcnt
          rw [refCount_update]
          constructor
          · omega
          · omega
        · rw [hLookup_hSet_ne _ _ _ _ (fun he => hc he.symm)] at hb
          have h := h1 id b hb
          rw [if_neg (fun he => hc ((Option.some.inj he).symm))] at hcnt
          constructor
          · omega
          · exact h.2
      · intro id hpos
        have hcnt := countRefs_lDel hs i (some x) id hg
        by_cases hc : id = x
        · subst hc
          exact ⟨_, hLookup_hSet_self _ _ _ hxlt⟩
        · rw [if_neg (fun he => hc ((Option.some.inj he).symm))] at hcnt
          obtain ⟨b0, hb0⟩ := h2 id (by omega)
          exact ⟨b0, by
            rw [hLookup_hSet_ne _ _ _ _ (fun he => hc he.symm)]
            exact hb0⟩

theorem inv_assign {α : Type} (heap : Heap α) (hs : List Handle) (i j : Nat)
    (d sc : Handle) (hgd : lGet hs i = some d) (hgs : lGet hs j = some sc)
    (hInv : Inv ⟨heap, hs⟩) (hlen : hs.length + 1 < uintMod) :
    Inv ⟨(assign heap d sc).1, lSet hs i (assign heap d sc).2.1⟩ := by
  rw [Inv_mk] at hInv
  obtain ⟨h1, h2⟩ := hInv
  by_cases he : d = sc
  · have ha : assign heap d sc = (heap, d, []) := by simp [assign, he]
    rw [ha]
    simp only []
    rw [lSet_same hs i d hgd]
    rw [Inv_mk]
    exact ⟨h1, h2⟩
  · have ha1 : (assign heap d sc).1 = (copyConstruct (release heap d).1 sc).1 := by
      simp [assign, he]
    have ha2 : (assign heap d sc).2.1 = sc := by
      simp [assign, he]
    rw [ha1, ha2, Inv_mk]
    cases d with
    | none =>
      have hr : (release heap none).1 = heap := rfl
      rw [hr]
      cases sc with
      | none => exact absurd rfl he
      | some y =>
        have hypos : 0 < countRefs hs y := countRefs_pos_of_lGet hs j y hgs
        obtain ⟨bY, hby⟩ := h2 y hypos
        obtain ⟨hcy, hpy⟩ := h1 y bY hby
        have hylt : y < heap.length := hLookup_lt_length _ _ _ hby
        have hyle := countRefs_le_length hs y
        have hradd : bY.ref.refCount = bY.refCount + 1 := by
          rw [ref_eq, refCount_update]
          exact preAdd_one bY.refCount (by omega)
        rw [copyConstruct_live heap y bY hby]
        simp only []
        constructor
        · intro id b hb
          have hcnt := countRefs_lSet hs i none (some y) id hgd
          simp only [reduceCtorEq, if_false] at hcnt
          by_cases hc : id = y
          · subst hc
            rw [hLookup_hSet_self _ _ _ hylt] at hb
            obtain rfl := Option.some.inj hb
            rw [if_pos rfl] at hcnt
            rw [hradd]
            constructor
            · omega
            · omega
          · rw [hLookup_hSet_ne _ _ _ _ (fun hh => hc hh.symm)] at hb
            have h := h1 id b hb
            rw [if_neg (fun hh => hc ((Option.some.inj hh).symm))] at hcnt
            constructor
            · omega
            · exact h.2
        · intro id hpos
          have hcnt := countRefs_lSet hs i none (some y) id hgd
          simp only [reduceCtorEq, if_false] at hcnt
          by_cases hc : id = y
          · subst hc
            exact ⟨_, hLookup_hSet_self _ _ _ hylt⟩
          · rw [if_neg (fun hh => hc ((Option.some.inj hh).symm))] at hcnt
            obtain ⟨b0, hb0⟩ := h2 id (by omega)
            exact ⟨b0, by
              rw [hLookup_hSet_ne _ _ _ _ (fun hh => hc hh.symm)]
              exact hb0⟩
    | some x =>
      have hxpos : 0 < countRefs hs x := countRefs_pos_of_lGet hs i x hgd
      obtain ⟨bx, hbx⟩ := h2 x hxpos
      obtain ⟨hcx, hpx⟩ := h1 x bx hbx
      have hxlt : x < heap.length := hLookup_lt_length _ _ _ hbx
      have hxle := countRefs_le_length hs x
      have hrel : (release heap (some x)).1 =
          (if bx.refCount = 1 then hSet heap x none
           else hSet heap x (some { bx with refCount := bx.refCount - 1 })) := by
        rw [release_live heap x bx hbx hpx (by omega)]
      cases sc with
      | none =>
        have hcp : ∀ hp : Heap α, (copyConstruct hp (none : Handle)).1 = hp :=
          fun hp => rfl
        rw [hcp, hrel]
        by_cases hc1 : bx.refCount = 1
        · rw [if_pos hc1]
          constructor
          · intro id b hb
            have hcnt := countRefs_lSet hs i (some x) none id hgd
            simp only [reduceCtorEq, if_false] at hcnt
            by_cases hc : id = x
            · subst hc
              rw [hLookup_hSet_self _ _ _ hxlt] at hb
              simp at hb
            · rw [hLookup_hSet_ne _ _ _ _ (fun hh => hc hh.symm)] at hb
              have h := h1 id b hb
              rw [if_neg (fun hh => hc ((Option.some.inj hh).symm))] at hcnt
              constructor
              · omega
              · exact h.2
          · intro id hpos
            have hcnt := countRefs_lSet hs i (some x) none id hgd
            simp only [reduceCtorEq, if_false] at hcnt
            by_cases hc : id = x
            · subst hc
              rw [if_pos rfl] at hcnt
              exfalso
              omega
            · rw [if_neg (fun hh => hc ((Option.some.inj hh).symm))] at hcnt
              obtain ⟨b0, hb0⟩ := h2 id (by omega)
              exact ⟨b0, by
                rw [hLookup_hSet_ne _ _ _ _ (fun hh => hc hh.symm)]
                exact hb0⟩
        · rw [if_neg hc1]
          constructor
          · intro id b hb
            have hcnt := countRefs_lSet hs i (some x) none id hgd
            simp only [reduceCtorEq, if_false] at hcnt
            by_cases hc : id = x
            · subst hc
              rw [hLookup_hSet_self _ _ _ hxlt] at hb
              obtain rfl := Option.some.inj hb
              rw [if_pos rfl] at hcnt
              rw [refCount_update]
              constructor
              · omega
              · omega
            · rw [hLookup_hSet_ne _ _ _ _ (fun hh => hc hh.symm)] at hb
              have h := h1 id b hb
              rw [if_neg (fun hh => hc ((Option.some.inj hh).symm))] at hcnt
              constructor
              · omega
              · exact h.2
          · intro id hpos
            have hcnt := countRefs_lSet hs i (some x) none id hgd
            simp only [reduceCtorEq, if_false] at hcnt
            by_cases hc : id = x
            · subst hc
              exact ⟨_, hLookup_hSet_self _ _ _ hxlt⟩
            · rw [if_neg (fun hh => hc ((Option.some.inj hh).symm))] at hcnt
              obtain ⟨b0, hb0⟩ := h2 id (by omega)
              exact ⟨b0, by
                rw [hLookup_hSet_ne _ _ _ _ (fun hh => hc hh.symm)]
                exact hb0⟩
      | some y =>
        have hxy : x ≠ y := fun hh => he (by rw [hh])
        have hypos : 0 < countRefs hs y := countRefs_pos_of_lGet hs j y hgs
        obtain ⟨bY, hby⟩ := h2 y hypos
        obtain ⟨hcy, hpy⟩ := h1 y bY hby
        have hylt : y < heap.length := hLookup_lt_length _ _ _ hby
        have hyle := countRefs_le_length hs y
        have hradd : bY.ref.refCount = bY.refCount + 1 := by
          rw [ref_eq, refCount_update]
          exact preAdd_one bY.refCount (by omega)
        have hby1 : hLookup (release heap (some x)).1 y = some bY := by
          rw [hrel]
          by_cases hc1 : bx.refCount = 1
          · rw [if_pos hc1, hLookup_hSet_ne _ _ _ _ hxy]
            exact hby
          · rw [if_neg hc1, hLookup_hSet_ne _ _ _ _ hxy]
            exact hby
        rw [copyConstruct_live _ y bY hby1]
        simp only []
        rw [hrel]
        by_cases hc1 : bx.refCount = 1
        · rw [if_pos hc1]
          constructor
          · intro id b hb
            have hcnt := countRefs_lSet hs i (some x) (some y) id hgd
            by_cases hcy2 : id = y
            · subst hcy2
              rw [hLookup_hSet_self _ _ _ (by rw [hSet_length]; exact hylt)] at hb
              obtain rfl := Option.some.inj hb
              rw [if_pos rfl] at hcnt
              rw [if_neg (fun hh => hxy (Option.some.inj hh))] at hcnt
              rw [hradd]
              constructor
              · omega
              · omega
            · rw [hLookup_hSet_ne _ _ _ _ (fun hh => hcy2 hh.symm)] at hb
              rw [if_neg (fun hh => hcy2 ((Option.some.inj hh).symm))] at hcnt
              by_cases hcx2 : id = x
              · subst hcx2
                rw [hLookup_hSet_self _ _ _ hxlt] at hb
                simp at hb
              · rw [hLookup_hSet_ne _ _ _ _ (fun hh => hcx2 hh.symm)] at hb
                have h := h1 id b hb
                rw [if_neg (fun hh => hcx2 ((Option.some.inj hh).symm))] at hcnt
                constructor
                · omega
                · exact h.2
          · intro id hpos
            have hcnt := countRefs_lSet hs i (some x) (some y) id hgd
            by_cases hcy2 : id = y
            · subst hcy2
              exact ⟨_, hLookup_hSet_self _ _ _ (by rw [hSet_length]; exact hylt)⟩
            · rw [if_neg (fun hh => hcy2 ((Option.some.inj hh).symm))] at hcnt
              by_cases hcx2 : id = x
              · subst hcx2
                rw [if_pos rfl] at hcnt
                exfalso
                omega
              · rw [if_neg (fun hh => hcx2 ((Option.some.inj hh).symm))] at hcnt
                obtain ⟨b0, hb0⟩ := h2 id (by omega)
                refine ⟨b0, ?_⟩
                rw [hLookup_hSet_ne _ _ _ _ (fun hh => hcy2 hh.symm)]
                rw [hLookup_hSet_ne _ _ _ _ (fun hh => hcx2 hh.symm)]
                exact hb0
        · rw [if_neg hc1]
          constructor
          · intro id b hb
            have hcnt := countRefs_lSet hs i (some x) (some y) id hgd
            by_cases hcy2 : id = y
            · subst hcy2
              rw [hLookup_hSet_self _ _ _ (by rw [hSet_length]; exact hylt)] at hb
              obtain rfl := Option.some.inj hb
              rw [if_pos rfl] at hcnt
              rw [if_neg (fun hh => hxy (Option.some.inj hh))] at hcnt
              rw [hradd]
              constructor
              · omega
              · omega
            · rw [hLookup_hSet_ne _ _ _ _ (fun hh => hcy2 hh.symm)] at hb
              rw [if_neg (fun hh => hcy2 ((Option.some.inj hh).symm))] at hcnt
              by_cases hcx2 : id = x
              · subst hcx2
                rw [hLookup_hSet_self _ _ _ hxlt] at hb
                obtain rfl := Option.some.inj hb
                rw [if_pos rfl] at hcnt
                rw [refCount_update]
                constructor
                · omega
                · omega
              · rw [hLookup_hSet_ne _ _ _ _ (fun hh => hcx2 hh.symm)] at hb
                have h := h1 id b hb
                rw [if_neg (fun hh => hcx2 ((Option.some.inj hh).symm))] at hcnt
                constructor
                · omega
                · exact h.2
          · intro id hpos
            have hcnt := countRefs_lSet hs i (some x) (some y) id hgd
            by_cases hcy2 : id = y
            · subst hcy2
              exact ⟨_, hLookup_hSet_self _ _ _ (by rw [hSet_length]; exact hylt)⟩
            · rw [if_neg (fun hh => hcy2 ((Option.some.inj hh).symm))] at hcnt
              by_cases hcx2 : id = x
              · subst hcx2
                refine ⟨{ bx with refCount := bx.refCount - 1 }, ?_⟩
                rw [hLookup_hSet_ne _ _ _ _ hxy.symm]
                exact hLookup_hSet_self _ _ _ hxlt
              · rw [if_neg (fun hh => hcx2 ((Option.some.inj hh).symm))] at hcnt
                obtain ⟨b0, hb0⟩ := h2 id (by omega)
                refine ⟨b0, ?_⟩
                rw [hLookup_hSet_ne _ _ _ _ (fun hh => hcy2 hh.symm)]
                rw [hLookup_hSet_ne _ _ _ _ (fun hh => hcx2 hh.symm)]
                exact hb0

theorem refCount_mk {α : Type} (r n : Nat) (es : List α) :
    (⟨r, n, es⟩ : Block α).refCount = r := rfl

theorem inv_modify {α : Type} [Inhabited α] (heap : Heap α) (hs : List Handle)
    (i : Nat) (hd : Handle) (hg : lGet hs i = some hd) (hInv : Inv ⟨heap, hs⟩)
    (hlen : hs.length < uintMod) :
    Inv ⟨(modifyOp heap hd).1, lSet hs i (modifyOp heap hd).2⟩ := by
  rw [Inv_mk] at hInv
  obtain ⟨h1, h2⟩ := hInv
  cases hd with
  | none =>
    have hm : modifyOp heap (none : Handle) = (heap, none) := rfl
    rw [hm]
    simp only []
    rw [lSet_same hs i none hg, Inv_mk]
    exact ⟨h1, h2⟩
  | some x =>
    have hxpos : 0 < countRefs hs x := countRefs_pos_of_lGet hs i x hg
    obtain ⟨bx, hbx⟩ := h2 x hxpos
    obtain ⟨hcx, hpx⟩ := h1 x bx hbx
    have hxlt : x < heap.length := hLookup_lt_length _ _ _ hbx
    have hxle := countRefs_le_length hs x
    have hpast : countRefs hs heap.length = 0 := by
      by_contra h
      obtain ⟨b, hb⟩ := h2 heap.length (Nat.pos_of_ne_zero h)
      have := hLookup_lt_length _ _ _ hb
      omega
    by_cases hc1 : bx.refCount = 1
    · have hm := (modify_exclusive_noop heap x bx hbx hc1).2
      rw [hm]
      simp only []
      rw [lSet_same hs i (some x) hg, Inv_mk]
      exact ⟨h1, h2⟩
    · have hm := modify_shared heap x bx hbx (by omega) (by omega)
      have hop : modifyOp heap (some x) =
          (hSet (heap ++ [some ⟨1, bx.size, bx.elements⟩]) x
             (some { bx with refCount := bx.refCount - 1 }),
           some heap.length) := by
        simp [modifyOp, hm]
      rw [hop]
      simp only []
      rw [Inv_mk]
      have hxne : x ≠ heap.length := Nat.ne_of_lt hxlt
      constructor
      · intro id b hb
        have hcnt := countRefs_lSet hs i (some x) (some heap.length) id hg
        by_cases hcl : id = heap.length
        · subst hcl
          rw [hLookup_hSet_ne _ _ _ _ hxne] at hb
          rw [hLookup_append_len] at hb
          obtain rfl := Option.some.inj hb
          rw [if_pos rfl] at hcnt
          rw [if_neg (fun hh => hxne (Option.some.inj hh))] at hcnt
          rw [refCount_mk]
          constructor
          · omega
          · omega
        · rw [if_neg (fun hh => hcl ((Option.some.inj hh).symm))] at hcnt
          by_cases hcx2 : id = x
          · subst hcx2
            rw [hLookup_hSet_self _ _ _ (by simp; omega)] at hb
            obtain rfl := Option.some.inj hb
            rw [if_pos rfl] at hcnt
            rw [refCount_update]
            constructor
            · omega
            · omega
          · rw [hLookup_hSet_ne _ _ _ _ (fun hh => hcx2 hh.symm)] at hb
            have hidlt : id < heap.length := by
              have h' := hLookup_lt_length _ _ _ hb
              simp at h'
              omega
            rw [hLookup_append_lt _ _ _ hidlt] at hb
            have h := h1 id b hb
            rw [if_neg (fun hh => hcx2 ((Option.some.inj hh).symm))] at hcnt
            constructor
            · omega
            · exact h.2
      · intro id hpos
        have hcnt := countRefs_lSet hs i (some x) (some heap.length) id hg
        by_cases hcl : id = heap.length
        · subst hcl
          refine ⟨⟨1, bx.size, bx.elements⟩, ?_⟩
          rw [hLookup_hSet_ne _ _ _ _ hxne]
          exact hLookup_append_len heap _
        · rw [if_neg (fun hh => hcl ((Option.some.inj hh).symm))] at hcnt
          by_cases hcx2 : id = x
          · subst hcx2
            refine ⟨{ bx with refCount := bx.refCount - 1 }, ?_⟩
            exact hLookup_hSet_self _ _ _ (by simp; omega)
          · rw [if_neg (fun hh => hcx2 ((Option.some.inj hh).symm))] at hcnt
            obtain ⟨b0, hb0⟩ := h2 id (by omega)
            have hid : id < heap.length := hLookup_lt_length _ _ _ hb0
            refine ⟨b0, ?_⟩
            rw [hLookup_hSet_ne _ _ _ _ (fun hh => hcx2 hh.symm)]
            rw [hLookup_append_lt _ _ _ hid]
            exact hb0

theorem inv_init {α : Type} : Inv (initSt α) := by
  rw [show initSt α = ⟨[], []⟩ from rfl, Inv_mk]
  constructor
  · intro id b hb
    simp [hLookup, lGet] at hb
  · intro id hpos
    simp [countRefs] at hpos

theorem inv_step {α : Type} [Inhabited α] (s : SysState α) (op : Op)
    (hInv : Inv s) (hlen : s.handles.length + 1 < uintMod) : Inv (step s op) := by
  obtain ⟨heap, hs⟩ := s
  simp only [] at hlen
  cases op with
  | constructInvalid => exact inv_push_none heap hs hInv
  | construct n =>
    have h := inv_construct heap hs n hInv
    simpa [step, constructSized, create] using h
  | copy i =>
    cases hg : lGet hs i with
    | none => simpa [step, hg] using hInv
    | some hd =>
      cases hd with
      | none =>
        have h := inv_push_none heap hs hInv
        simpa [step, hg, copyConstruct] using h
      | some x =>
        have hxpos : 0 < countRefs hs x := countRefs_pos_of_lGet hs i x hg
        obtain ⟨b, hb⟩ := ((Inv_mk heap hs).mp hInv).2 x hxpos
        have h := inv_copy heap hs x b hb hInv hlen
        have hcc := copyConstruct_live heap x b hb
        simp only [step, hg, hcc]
        exact h
  | assignOp i j =>
    cases hgi : lGet hs i with
    | none => simpa [step, hgi] using hInv
    | some d =>
      cases hgj : lGet hs j with
      | none => simpa [step, hgi, hgj] using hInv
      | some sc =>
        have h := inv_assign heap hs i j d sc hgi hgj hInv hlen
        simp only [step, hgi, hgj]
        exact h
  | modifyStep i =>
    cases hg : lGet hs i with
    | none => simpa [step, hg] using hInv
    | some hd =>
      have h := inv_modify heap hs i hd hg hInv (by omega)
      simp only [step, hg]
      exact h
  | destroyH i =>
    cases hg : lGet hs i with
    | none => simpa [step, hg] using hInv
    | some hd =>
      have h := inv_destroyH heap hs i hd hg hInv (by omega)
      simp only [step, hg]
      exact h

theorem step_handles_le {α : Type} [Inhabited α] (s : SysState α) (op : Op) :
    (step s op).handles.length ≤ s.handles.length + 1 := by
  obtain ⟨heap, hs⟩ := s
  cases op with
  | constructInvalid => simp [step]
  | construct n => simp [step]
  | copy i =>
    cases hg : lGet hs i with
    | none => simp [step, hg]
    | some hd => simp [step, hg]
  | assignOp i j =>
    cases hgi : lGet hs i with
    | none => simp [step, hgi]
    | some d =>
      cases hgj : lGet hs j with
      | none => simp [step, hgi, hgj]
      | some sc => simp [step, hgi, hgj, lSet_length]
  | modifyStep i =>
    cases hg : lGet hs i with
    | none => simp [step, hg]
    | some hd => simp [step, hg, lSet_length]
  | destroyH i =>
    cases hg : lGet hs i with
    | none => simp [step, hg]
    | some hd =>
      simp only [step, hg]
      have := lDel_length_le hs i
      omega

theorem inv_run {α : Type} [Inhabited α] (ops : List Op) (s : SysState α)
    (hInv : Inv s) (hlen : s.handles.length + ops.length < uintMod) :
    Inv (run s ops) := by
  induction ops generalizing s with
  | nil => exact hInv
  | cons op ops ih =>
    simp only [run]
    simp only [List.length_cons] at hlen
    have hle := step_handles_le s op
    exact ih (step s op) (inv_step s op hInv (by omega)) (by omega)

theorem run_handles_le {α : Type} [Inhabited α] (ops : List Op) (s : SysState α) :
    (run s ops).handles.length ≤ s.handles.length + ops.length := by
  induction ops generalizing s with
  | nil => simp [run]
  | cons op ops ih =>
    simp only [run, List.length_cons]
    have h1 := ih (step s op)
    have h2 := step_handles_le s op
    omega

/-- C7: along every sequence of handle operations started from the empty
state (with fewer operations than the reference counter's modulus), the
reference-count invariant holds — every live block's `refCount` equals the
number of handles currently referencing it — and across any further
operation a surviving block keeps its size (and elements), a block is
destroyed only by the operation whose unref takes its reference count from
1 to 0, and a destroyed slot is never resurrected (so the block is
destroyed exactly once). -/
theorem refcount_invariant_sequences {α : Type} [Inhabited α] (ops : List Op)
    (op : Op) (hlen : ops.length + 1 < uintMod) :
    Inv (run (initSt α) ops) ∧
    (∀ id b b', hLookup (run (initSt α) ops).heap id = some b →
      hLookup (step (run (initSt α) ops) op).heap id = some b' →
      b'.size = b.size ∧ b'.elements = b.elements) ∧
    (∀ id b, hLookup (run (initSt α) ops).heap id = some b →
      hLookup (step (run (initSt α) ops) op).heap id = none →
      b.refCount = 1) ∧
    (∀ id, id < (run (initSt α) ops).heap.length →
      hLookup (run (initSt α) ops).heap id = none →
      hLookup (step (run (initSt α) ops) op).heap id = none) := by
  have hrun : Inv (run (initSt α) ops) :=
    inv_run ops (initSt α) inv_init (by simp [initSt]; omega)
  have hrlen : (run (initSt α) ops).handles.length < uintMod := by
    have h := run_handles_le ops (initSt α)
    have h0 : (initSt α).handles.length = 0 := rfl
    omega
  refine ⟨hrun, ?_, ?_, ?_⟩
  · intro id b b' hb hb'
    exact evolves_size_elements _ _ (step_evolves _ op) id b b' hb hb'
  · intro id b hb hd
    exact step_destroys_one _ op id b hrun hrlen hb hd
  · intro id hlt hdead
    exact evolves_dead _ _ (step_evolves _ op) id hdead hlt

theorem refcount_invariant_sequences_witness :
    Inv (run (initSt Nat) [Op.construct 2, Op.copy 0]) ∧
    (∀ id b b', hLookup (run (initSt Nat) [Op.construct 2, Op.copy 0]).heap id = some b →
      hLookup (step (run (initSt Nat) [Op.construct 2, Op.copy 0]) (Op.destroyH 0)).heap id = some b' →
      b'.size = b.size ∧ b'.elements = b.elements) ∧
    (∀ id b, hLookup (run (initSt Nat) [Op.construct 2, Op.copy 0]).heap id = some b →
      hLookup (step (run (initSt Nat) [Op.construct 2, Op.copy 0]) (Op.destroyH 0)).heap id = none →
      b.refCount = 1) ∧
    (∀ id, id < (run (initSt Nat) [Op.construct 2, Op.copy 0]).heap.length →
      hLookup (run (initSt Nat) [Op.construct 2, Op.copy 0]).heap id = none →
      hLookup (step (run (initSt Nat) [Op.construct 2, Op.copy 0]) (Op.destroyH 0)).heap id = none) :=
  refcount_invariant_sequences [Op.construct 2, Op.copy 0] (Op.destroyH 0)
    (by decide)

end Threads
